import Mathlib

/-!
Verification of the binary uninstall-log decoder/encoder (`src/model.rs`):
header parsing with CRC-32 integrity check, record stream decoding, and the
sentinel-framed UTF-16 embedded-string codec used by the `rebase` operation.

Bytes are modelled as natural numbers (well-formed buffers carry values
below 256); fallible operations return `Except`/`Option`, with one error
constructor per distinct failure point of the source (each Rust `expect`,
`assert!` or slice-bounds panic).
-/

set_option maxRecDepth 8000

deriving instance DecidableEq for Except

/-! ## Little-endian integer codecs (the `byteorder` operations used) -/

/-- Value of a little-endian byte list: byte 0 is least significant. -/
def leVal (bs : List Nat) : Nat :=
  bs.foldr (fun b acc => b + 256 * acc) 0

/-- Little-endian encoding of `n % 2^32` on 4 bytes (`write_u32`). -/
def u32le (n : Nat) : List Nat :=
  [n % 256, n / 256 % 256, n / 65536 % 256, n / 16777216 % 256]

/-- Interpretation of a 32-bit unsigned value as two's-complement signed
(`read_i32` applied to the same 4 bytes as `read_u32`). -/
def toSigned32 (n : Nat) : Int :=
  if n < 2147483648 then (n : Int) else (n : Int) - 4294967296

/-- Little-endian encoding of a signed 32-bit value (`write_i32`):
two's complement of `v` modulo `2^32`. -/
def i32le (v : Int) : List Nat :=
  u32le ((v % 4294967296).toNat)

/-- Pair consecutive bytes into little-endian 16-bit units
(`LittleEndian::read_u16_into`). -/
def bytesToU16s : List Nat → List Nat
  | b0 :: b1 :: rest => (b0 + 256 * b1) :: bytesToU16s rest
  | _ => []

/-- Serialize 16-bit units as little-endian byte pairs
(`LittleEndian::write_u16_into`). -/
def u16sToBytes : List Nat → List Nat
  | [] => []
  | u :: rest => u % 256 :: u / 256 % 256 :: u16sToBytes rest

/-! ## UTF-16 codec (`String::from_utf16` and `str::encode_utf16`) -/

/-- UTF-16 code units of one Unicode scalar value: one unit below `0x10000`,
a surrogate pair at or above. -/
def utf16EncodeChar (c : Char) : List Nat :=
  let n := c.toNat
  if n < 65536 then [n]
  else [55296 + (n - 65536) / 1024, 56320 + (n - 65536) % 1024]

/-- UTF-16 code units of a string (`encode_utf16().collect()`). -/
def utf16EncodeStr : List Char → List Nat
  | [] => []
  | c :: s => utf16EncodeChar c ++ utf16EncodeStr s

/-- Decode UTF-16 code units to text; `none` on an unpaired surrogate
(`String::from_utf16` failure). -/
def utf16Decode : List Nat → Option (List Char)
  | [] => some []
  | u :: rest =>
    if u < 55296 ∨ 57344 ≤ u then
      (utf16Decode rest).map (fun cs => Char.ofNat u :: cs)
    else if u < 56320 then
      match rest with
      | [] => none
      | v :: rest2 =>
        if 56320 ≤ v ∧ v < 57344 then
          (utf16Decode rest2).map
            (fun cs => Char.ofNat (65536 + (u - 55296) * 1024 + (v - 56320)) :: cs)
        else none
    else none

/-! ## Record model (`FileRec`, `UninstallRecTyp`) -/

/-- The 17 recognized record type tags (`enum UninstallRecTyp`). -/
inductive UninstallRecTyp
  | UserDefined
  | StartInstall
  | EndInstall
  | CompiledCode
  | Run
  | DeleteDirOrFiles
  | DeleteFile
  | DeleteGroupOrItem
  | IniDeleteEntry
  | IniDeleteSection
  | RegDeleteEntireKey
  | RegClearValue
  | RegDeleteKeyIfEmpty
  | RegDeleteValue
  | DecrementSharedCount
  | RefreshFileAssoc
  | MutexCheck
deriving DecidableEq

/-- Map a raw 16-bit tag to its record type (`UninstallRecTyp::from`);
`none` models the panic on an unrecognized value. -/
def UninstallRecTyp.from (i : Nat) : Option UninstallRecTyp :=
  match i with
  | 0x01 => some .UserDefined
  | 0x10 => some .StartInstall
  | 0x11 => some .EndInstall
  | 0x20 => some .CompiledCode
  | 0x80 => some .Run
  | 0x81 => some .DeleteDirOrFiles
  | 0x82 => some .DeleteFile
  | 0x83 => some .DeleteGroupOrItem
  | 0x84 => some .IniDeleteEntry
  | 0x85 => some .IniDeleteSection
  | 0x86 => some .RegDeleteEntireKey
  | 0x87 => some .RegClearValue
  | 0x88 => some .RegDeleteKeyIfEmpty
  | 0x89 => some .RegDeleteValue
  | 0x8A => some .DecrementSharedCount
  | 0x8B => some .RefreshFileAssoc
  | 0x8C => some .MutexCheck
  | _ => none

/-- One log entry: type tag, auxiliary word, owned payload (`struct FileRec`). -/
structure FileRec where
  typ : UninstallRecTyp
  extra_data : Nat
  data : List Nat
deriving DecidableEq

/-- Distinct failure points of `FileRec::get_string`, in source order: the two
byte reads (`expect`), the three `assert!`s, the evenness `assert!`, the
`&slice[5..5 + old_size]` bounds panic, and the `from_utf16` failure. -/
inductive StrErr
  | shortFirst
  | firstNotFE
  | shortSize
  | sizeNonNeg
  | lastNotFF
  | oddSize
  | sliceOOB
  | invalidUtf16
deriving DecidableEq

/-- Errors raised by the framing `assert!`s of `get_string` (and the UTF-16
validity check), as opposed to a short read or the slice-bounds panic. -/
def StrErr.isFraming : StrErr → Bool
  | .firstNotFE | .sizeNonNeg | .lastNotFF | .oddSize | .invalidUtf16 => true
  | _ => false

/-- Embedded-string decode of a record payload (the body of
`FileRec::get_string`, called `extract_string(data)` in the design):
checks the leading `0xFE` sentinel, reads the negative size field, checks the
trailing `0xFF` sentinel on the final payload byte, requires an even
magnitude, and decodes bytes `[5, 5+magnitude)` as UTF-16LE. Returns the
text with the magnitude (old byte length of the segment). -/
def extract_string (data : List Nat) : Except StrErr (List Char × Nat) :=
  match data with
  | [] => .error .shortFirst
  | first :: rest =>
    if first = 0xFE then
      if 4 ≤ rest.length then
        let size := toSigned32 (leVal (rest.take 4))
        if size < 0 then
          if (first :: rest).getLastD 0 = 0xFF then
            let old_size := size.natAbs
            if old_size % 2 = 0 then
              if 5 + old_size ≤ (first :: rest).length then
                match utf16Decode (bytesToU16s (((first :: rest).drop 5).take old_size)) with
                | some s => .ok (s, old_size)
                | none => .error .invalidUtf16
              else .error .sliceOOB
            else .error .oddSize
          else .error .lastNotFF
        else .error .sizeNonNeg
      else .error .shortSize
    else .error .firstNotFE

/-- Embedded-string decode of a record (`FileRec::get_string`). -/
def FileRec.get_string (r : FileRec) : Except StrErr (List Char × Nat) :=
  extract_string r.data

/-- Path rebase (`FileRec::rebase`): decode the embedded string; if it starts
with `src` replace that prefix by `dst`; re-encode to UTF-16LE and build the
new payload `0xFE ++ i32le (-new_size) ++ units ++ old tail`, the tail being
every original byte from offset `5 + old_size` on. An error of the decode
step propagates (the source process aborts there, leaving the record
unmodified); on success only `data` changes. -/
def FileRec.rebase (r : FileRec) (src dst : List Char) : Except StrErr FileRec :=
  match extract_string r.data with
  | .error e => .error e
  | .ok (path, old_size) =>
    let path2 := if src.isPrefixOf path then dst ++ path.drop src.length else path
    let u16data := utf16EncodeStr path2
    let new_size := 2 * u16data.length
    .ok ⟨r.typ, r.extra_data,
      0xFE :: (i32le (-(new_size : Int)) ++ (u16sToBytes u16data ++ r.data.drop (5 + old_size)))⟩

/-- Distinct failure points of `FileRec::from_reader`, in source order: the
three header-field reads, the size-ceiling check, the payload read, and the
type-tag mapping (which the source performs only after the payload read). -/
inductive RecErr
  | shortTyp
  | shortExtraData
  | shortDataSize
  | dataSizeTooLarge
  | shortData
  | unrecognizedTyp
deriving DecidableEq

/-- Record decode (`FileRec::from_reader`): reads `typ` (u16), `extra_data`
(u32) and `data_size` (u32) little-endian, rejects `data_size > 0x8000000`
before touching the payload, reads exactly `data_size` payload bytes, and
finally maps the type tag. Returns the record with the unconsumed rest of
the stream. -/
def FileRec.from_reader (input : List Nat) : Except RecErr (FileRec × List Nat) :=
  if 2 ≤ input.length then
    let typ_raw := leVal (input.take 2)
    let r1 := input.drop 2
    if 4 ≤ r1.length then
      let extra_data := leVal (r1.take 4)
      let r2 := r1.drop 4
      if 4 ≤ r2.length then
        let data_size := leVal (r2.take 4)
        let r3 := r2.drop 4
        if 0x8000000 < data_size then .error .dataSizeTooLarge
        else if data_size ≤ r3.length then
          match UninstallRecTyp.from typ_raw with
          | some typ => .ok (⟨typ, extra_data, r3.take data_size⟩, r3.drop data_size)
          | none => .error .unrecognizedTyp
        else .error .shortData
      else .error .shortDataSize
    else .error .shortExtraData
  else .error .shortTyp

/-! ## Header model (`Header`, CRC-32) -/

/-- One step of the bitwise reflected CRC-32: shift right, conditionally
xor the IEEE polynomial `0xEDB88320`. -/
def crc32Step (c : Nat) : Nat :=
  if c % 2 = 1 then (c / 2) ^^^ 0xEDB88320 else c / 2

/-- Fold one byte into a CRC-32 state (xor in the byte, 8 bit steps). -/
def crc32Byte (c b : Nat) : Nat :=
  crc32Step^[8] (c ^^^ b)

/-- CRC-32/IEEE of a byte list (the `crc32::Digest::new(crc32::IEEE)`
checksum): initial state `0xFFFFFFFF`, final xor `0xFFFFFFFF`. -/
def crc32 (bs : List Nat) : Nat :=
  (bs.foldl crc32Byte 0xFFFFFFFF) ^^^ 0xFFFFFFFF

/-- UTF-8 bytes of `"Inno Setup Uninstall Log (b)"` (`HEADER_ID_32`). -/
def headerId32 : List Nat :=
  "Inno Setup Uninstall Log (b)".toList.map Char.toNat

/-- UTF-8 bytes of `"Inno Setup Uninstall Log (b) 64-bit"` (`HEADER_ID_64`). -/
def headerId64 : List Nat :=
  "Inno Setup Uninstall Log (b) 64-bit".toList.map Char.toNat

/-- Modelled from the spec: `strings::read_utf8_string` (module `strings` is
not part of the sources given) reads a fixed-width text field, "interpreted
as UTF-8 and trimmed of padding"; modelled as the bytes before the first NUL
padding byte. The model keeps fields as UTF-8 byte lists; comparing them
with the magic strings' UTF-8 bytes agrees with comparing decoded strings
because UTF-8 decoding is injective. -/
def read_utf8_string (bs : List Nat) : List Nat :=
  bs.takeWhile (fun b => b ≠ 0)

/-- The fixed 448-byte log preamble (`struct Header`); `id`, `app_id` and
`app_name` are kept as trimmed UTF-8 byte lists. -/
structure Header where
  id : List Nat
  app_id : List Nat
  app_name : List Nat
  version : Int
  num_recs : Nat
  end_offset : Nat
  flags : Nat
  crc : Nat
deriving DecidableEq

/-- The `num_recs as usize` cast: an `i32` sign-extended and reinterpreted
as a 64-bit unsigned size. -/
def usizeOfI32 (v : Int) : Nat :=
  ((v % 18446744073709551616).toNat)

/-- Header decode (`Header::from_reader`): reads the 448-byte block
(`none` on a short read), extracts the fields at their fixed offsets,
checks the stored CRC against CRC-32/IEEE of bytes `[0,444)`, requires a
recognized magic `id`, and requires `version ≤ 1048`
(`HIGHEST_SUPPORTED_VERSION`). -/
def Header.from_reader (input : List Nat) : Option Header :=
  if 448 ≤ input.length then
    let buf := input.take 448
    let id := read_utf8_string (buf.take 64)
    let app_id := read_utf8_string ((buf.drop 64).take 128)
    let app_name := read_utf8_string ((buf.drop 192).take 128)
    let version := toSigned32 (leVal ((buf.drop 320).take 4))
    let num_recs := usizeOfI32 (toSigned32 (leVal ((buf.drop 324).take 4)))
    let end_offset := leVal ((buf.drop 328).take 4)
    let flags := leVal ((buf.drop 332).take 4)
    let crc := leVal ((buf.drop 444).take 4)
    if crc32 (buf.take 444) = crc then
      if id = headerId32 ∨ id = headerId64 then
        if 1048 < version then none
        else some ⟨id, app_id, app_name, version, num_recs, end_offset, flags, crc⟩
      else none
    else none
  else none

/-! ## Helper lemmas: little-endian codecs -/

theorem leVal_nil : leVal [] = 0 := rfl

theorem leVal_cons (b : Nat) (bs : List Nat) : leVal (b :: bs) = b + 256 * leVal bs := rfl

theorem leVal_lt_of_len4 (b0 b1 b2 b3 : Nat) (h0 : b0 < 256) (h1 : b1 < 256)
    (h2 : b2 < 256) (h3 : b3 < 256) : leVal [b0, b1, b2, b3] < 4294967296 := by
  simp only [leVal_cons, leVal_nil] at *
  omega

theorem u32le_leVal (b0 b1 b2 b3 : Nat) (h0 : b0 < 256) (h1 : b1 < 256)
    (h2 : b2 < 256) (h3 : b3 < 256) : u32le (leVal [b0, b1, b2, b3]) = [b0, b1, b2, b3] := by
  simp only [leVal_cons, leVal_nil, u32le]
  have e0 : (b0 + 256 * (b1 + 256 * (b2 + 256 * (b3 + 256 * 0)))) % 256 = b0 := by omega
  have e1 : (b0 + 256 * (b1 + 256 * (b2 + 256 * (b3 + 256 * 0)))) / 256 % 256 = b1 := by omega
  have e2 : (b0 + 256 * (b1 + 256 * (b2 + 256 * (b3 + 256 * 0)))) / 65536 % 256 = b2 := by omega
  have e3 : (b0 + 256 * (b1 + 256 * (b2 + 256 * (b3 + 256 * 0)))) / 16777216 % 256 = b3 := by omega
  rw [e0, e1, e2, e3]

theorem leVal_u32le (n : Nat) : leVal (u32le n) = n % 4294967296 := by
  simp only [u32le, leVal_cons, leVal_nil]
  omega

theorem toSigned32_neg_iff (n : Nat) (h : n < 4294967296) :
    toSigned32 n < 0 ↔ 2147483648 ≤ n := by
  simp only [toSigned32]
  split <;> omega

theorem i32le_of_toSigned32 (n : Nat) (h : n < 4294967296) :
    i32le (toSigned32 n) = u32le n := by
  simp only [i32le, toSigned32]
  split <;> (congr 1; omega)

theorem i32le_neg_small (m : Nat) (h0 : 0 < m) (h : m < 2147483648) :
    (((-(m : Int)) % 4294967296)).toNat = 4294967296 - m := by
  omega

theorem toSigned32_of_i32le_neg (m : Nat) (h0 : 0 < m) (h : m < 2147483648) :
    toSigned32 (leVal (i32le (-(m : Int)))) = -(m : Int) := by
  simp only [i32le, leVal_u32le, toSigned32, i32le_neg_small m h0 h]
  have h2 : (4294967296 - m) % 4294967296 = 4294967296 - m := by omega
  rw [h2]
  split <;> omega

/-! ## Helper lemmas: 16-bit unit packing -/

theorem u16sToBytes_length (us : List Nat) : (u16sToBytes us).length = 2 * us.length := by
  induction us with
  | nil => rfl
  | cons u rest ih => simp [u16sToBytes, ih]; omega

theorem u16sToBytes_lt (us : List Nat) : ∀ b ∈ u16sToBytes us, b < 256 := by
  induction us with
  | nil => intro b hb; simp [u16sToBytes] at hb
  | cons u rest ih =>
    intro b hb
    simp only [u16sToBytes, List.mem_cons] at hb
    rcases hb with h | h | h
    · omega
    · omega
    · exact ih b h

theorem bytesToU16s_u16sToBytes (us : List Nat) (h : ∀ u ∈ us, u < 65536) :
    bytesToU16s (u16sToBytes us) = us := by
  induction us with
  | nil => rfl
  | cons u rest ih =>
    have hu : u < 65536 := h u (List.mem_cons_self u rest)
    simp only [u16sToBytes, bytesToU16s]
    rw [ih (fun v hv => h v (List.mem_cons_of_mem u hv))]
    congr 1
    omega

theorem u16sToBytes_bytesToU16s :
    ∀ (bs : List Nat), bs.length % 2 = 0 → (∀ b ∈ bs, b < 256) →
      u16sToBytes (bytesToU16s bs) = bs
  | [] => fun _ _ => rfl
  | [b] => fun heven _ => by simp at heven
  | b0 :: b1 :: rest => fun heven h => by
    simp only [bytesToU16s, u16sToBytes]
    rw [u16sToBytes_bytesToU16s rest
      (by simp only [List.length_cons] at heven; omega)
      (fun v hv => h v (by simp [hv]))]
    have h0 : b0 < 256 := h b0 (by simp)
    have h1 : b1 < 256 := h b1 (by simp)
    congr 1
    · omega
    · congr 1
      omega

/-! ## Helper lemmas: UTF-16 codec -/

theorem char_toNat_ofNat (n : Nat) (h : n.isValidChar) : (Char.ofNat n).toNat = n := by
  simp [Char.ofNat, h, Char.ofNatAux, Char.toNat]
  rfl

theorem char_valid (c : Char) :
    c.toNat < 55296 ∨ (57343 < c.toNat ∧ c.toNat < 1114112) := c.valid

theorem utf16EncodeStr_append (a b : List Char) :
    utf16EncodeStr (a ++ b) = utf16EncodeStr a ++ utf16EncodeStr b := by
  induction a with
  | nil => rfl
  | cons c cs ih => simp [utf16EncodeStr, ih]

theorem utf16EncodeChar_lt (c : Char) : ∀ u ∈ utf16EncodeChar c, u < 65536 := by
  intro u hu
  have hv := char_valid c
  by_cases hbmp : c.toNat < 65536
  · simp only [utf16EncodeChar, if_pos hbmp, List.mem_singleton] at hu
    omega
  · simp only [utf16EncodeChar, if_neg hbmp, List.mem_cons, List.not_mem_nil, or_false] at hu
    have hq : (c.toNat - 65536) / 1024 < 1024 := by omega
    have hr : (c.toNat - 65536) % 1024 < 1024 := Nat.mod_lt _ (by norm_num)
    omega

theorem utf16EncodeStr_lt (s : List Char) : ∀ u ∈ utf16EncodeStr s, u < 65536 := by
  induction s with
  | nil => intro u hu; simp [utf16EncodeStr] at hu
  | cons c cs ih =>
    intro u hu
    simp only [utf16EncodeStr, List.mem_append] at hu
    rcases hu with h | h
    · exact utf16EncodeChar_lt c u h
    · exact ih u h

theorem utf16Decode_nil : utf16Decode [] = some [] := rfl

theorem utf16Decode_cons_one (u : Nat) (rest : List Nat) (h : u < 55296 ∨ 57344 ≤ u) :
    utf16Decode (u :: rest) = (utf16Decode rest).map (fun cs => Char.ofNat u :: cs) := by
  rw [utf16Decode.eq_def]
  dsimp only
  rw [if_pos h]

theorem utf16Decode_cons_pair (u v : Nat) (rest : List Nat)
    (h : ¬(u < 55296 ∨ 57344 ≤ u)) (h2 : u < 56320) (h3 : 56320 ≤ v ∧ v < 57344) :
    utf16Decode (u :: v :: rest) =
      (utf16Decode rest).map
        (fun cs => Char.ofNat (65536 + (u - 55296) * 1024 + (v - 56320)) :: cs) := by
  rw [utf16Decode.eq_def]
  dsimp only
  rw [if_neg h, if_pos h2, if_pos h3]

theorem utf16Decode_encodeStr (s : List Char) :
    utf16Decode (utf16EncodeStr s) = some s := by
  induction s with
  | nil => rfl
  | cons c cs ih =>
    have hv := char_valid c
    by_cases hbmp : c.toNat < 65536
    · have he : utf16EncodeStr (c :: cs) = c.toNat :: utf16EncodeStr cs := by
        simp [utf16EncodeStr, utf16EncodeChar, hbmp]
      have hcond : c.toNat < 55296 ∨ 57344 ≤ c.toNat := by omega
      rw [he, utf16Decode_cons_one _ _ hcond, ih]
      simp [Char.ofNat_toNat]
    · have he : utf16EncodeStr (c :: cs) =
          (55296 + (c.toNat - 65536) / 1024) ::
            ((56320 + (c.toNat - 65536) % 1024) :: utf16EncodeStr cs) := by
        simp [utf16EncodeStr, utf16EncodeChar, hbmp]
      have hdiv : (c.toNat - 65536) / 1024 < 1024 := by omega
      have hmod : (c.toNat - 65536) % 1024 < 1024 := Nat.mod_lt _ (by norm_num)
      have hcond : ¬(55296 + (c.toNat - 65536) / 1024 < 55296 ∨
          57344 ≤ 55296 + (c.toNat - 65536) / 1024) := by omega
      have hlo : 56320 ≤ 56320 + (c.toNat - 65536) % 1024 ∧
          56320 + (c.toNat - 65536) % 1024 < 57344 := by omega
      rw [he, utf16Decode_cons_pair _ _ _ hcond (by omega) hlo, ih]
      simp only [Option.map_some', Option.some.injEq]
      have harith : 65536 + (c.toNat - 65536) / 1024 * 1024 + (c.toNat - 65536) % 1024
          = c.toNat := by omega
      rw [show 55296 + (c.toNat - 65536) / 1024 - 55296 = (c.toNat - 65536) / 1024 by omega,
        show 56320 + (c.toNat - 65536) % 1024 - 56320 = (c.toNat - 65536) % 1024 by omega,
        harith, Char.ofNat_toNat]

theorem encodeStr_of_utf16Decode :
    ∀ (us : List Nat) (s : List Char), (∀ u ∈ us, u < 65536) →
      utf16Decode us = some s → utf16EncodeStr s = us
  | [], s, _, hd => by
    rw [utf16Decode_nil, Option.some.injEq] at hd
    subst hd
    rfl
  | [u], s, hb, hd => by
    have hu : u < 65536 := hb u (by simp)
    by_cases hcond : u < 55296 ∨ 57344 ≤ u
    · rw [utf16Decode_cons_one _ _ hcond, utf16Decode_nil] at hd
      simp only [Option.map_some', Option.some.injEq] at hd
      subst hd
      have hvalid : u.isValidChar := by
        rcases hcond with h | h
        · exact Or.inl h
        · exact Or.inr ⟨by omega, by omega⟩
      simp [utf16EncodeStr, utf16EncodeChar, char_toNat_ofNat u hvalid, hu]
    · by_cases hlt : u < 56320
      · rw [utf16Decode.eq_def] at hd
        dsimp only at hd
        rw [if_neg hcond, if_pos hlt] at hd
        exact absurd hd (by simp)
      · rw [utf16Decode.eq_def] at hd
        dsimp only at hd
        rw [if_neg hcond, if_neg hlt] at hd
        exact absurd hd (by simp)
  | u :: v :: rest, s, hb, hd => by
    have hu : u < 65536 := hb u (by simp)
    have hvlt : v < 65536 := hb v (by simp)
    by_cases hcond : u < 55296 ∨ 57344 ≤ u
    · rw [utf16Decode_cons_one _ _ hcond] at hd
      cases hrest : utf16Decode (v :: rest) with
      | none => rw [hrest] at hd; exact absurd hd (by simp)
      | some cs =>
        rw [hrest] at hd
        simp only [Option.map_some', Option.some.injEq] at hd
        subst hd
        have hvalid : u.isValidChar := by
          rcases hcond with h | h
          · exact Or.inl h
          · exact Or.inr ⟨by omega, by omega⟩
        have htail := encodeStr_of_utf16Decode (v :: rest) cs
          (fun w hw => hb w (by simp at hw ⊢; tauto)) hrest
        simp only [utf16EncodeStr, utf16EncodeChar, char_toNat_ofNat u hvalid, if_pos hu,
          htail]
        rfl
    · by_cases hlt : u < 56320
      · by_cases hpair : 56320 ≤ v ∧ v < 57344
        · rw [utf16Decode_cons_pair _ _ _ hcond hlt hpair] at hd
          cases hrest : utf16Decode rest with
          | none => rw [hrest] at hd; exact absurd hd (by simp)
          | some cs =>
            rw [hrest] at hd
            simp only [Option.map_some', Option.some.injEq] at hd
            subst hd
            have hn : (65536 + (u - 55296) * 1024 + (v - 56320)).isValidChar := by
              right
              constructor <;> omega
            have htail := encodeStr_of_utf16Decode rest cs
              (fun w hw => hb w (by simp [hw])) hrest
            simp only [utf16EncodeStr, utf16EncodeChar, char_toNat_ofNat _ hn,
              if_neg (by omega : ¬(65536 + (u - 55296) * 1024 + (v - 56320) < 65536)), htail]
            have h1 : 55296 + (65536 + (u - 55296) * 1024 + (v - 56320) - 65536) / 1024 = u := by
              omega
            have h2 : 56320 + (65536 + (u - 55296) * 1024 + (v - 56320) - 65536) % 1024 = v := by
              omega
            rw [h1, h2]
            rfl
        · rw [utf16Decode.eq_def] at hd
          dsimp only at hd
          rw [if_neg hcond, if_pos hlt, if_neg hpair] at hd
          exact absurd hd (by simp)
      · rw [utf16Decode.eq_def] at hd
        dsimp only at hd
        rw [if_neg hcond, if_neg hlt] at hd
        exact absurd hd (by simp)

theorem getLastD_ne_nil : ∀ (l : List Nat) (d1 d2 : Nat), l ≠ [] → l.getLastD d1 = l.getLastD d2
  | [], _, _, h => absurd rfl h
  | b :: l, d1, d2, _ => by rw [List.getLastD_cons, List.getLastD_cons]

theorem getLastD_append_right (l1 l2 : List Nat) (h : l2 ≠ []) :
    (l1 ++ l2).getLastD 0 = l2.getLastD 0 := by
  induction l1 with
  | nil => rfl
  | cons a t ih =>
    have hne : t ++ l2 ≠ [] := by
      simp only [ne_eq, List.append_eq_nil]
      intro hc
      exact h hc.2
    rw [List.cons_append, List.getLastD_cons, getLastD_ne_nil (t ++ l2) a 0 hne, ih]

theorem extract_string_ok (data : List Nat) (s : List Char) (m : Nat)
    (h : extract_string data = .ok (s, m)) :
    5 ≤ data.length ∧
    data.head? = some 0xFE ∧
    toSigned32 (leVal ((data.drop 1).take 4)) = -(m : Int) ∧
    m % 2 = 0 ∧ 0 < m ∧
    data.getLastD 0 = 0xFF ∧
    5 + m ≤ data.length ∧
    utf16Decode (bytesToU16s ((data.drop 5).take m)) = some s := by
  cases data with
  | nil => exact absurd h (by simp [extract_string])
  | cons first rest =>
    simp only [extract_string] at h
    split_ifs at h with h1 h2 h3 h4 h5 h6
    split at h
    · next s0 heq =>
      injection h with h7
      injection h7 with hs hm
      subst hs
      subst hm
      subst h1
      refine ⟨by simp only [List.length_cons]; omega, rfl, ?_, h5, ?_, h4, by simpa using h6, heq⟩
      · simp only [List.drop_one, List.tail_cons]
        omega
      · omega
    · exact absurd h (by simp)

theorem i32le_length (v : Int) : (i32le v).length = 4 := rfl

theorem extract_string_rebuilt (us tail : List Nat) (s : List Char)
    (hus : ∀ u ∈ us, u < 65536) (h0 : 0 < us.length)
    (hsz : 2 * us.length < 2147483648) (htail : tail ≠ [])
    (hlast : tail.getLastD 0 = 0xFF) (hdec : utf16Decode us = some s) :
    extract_string (0xFE :: (i32le (-(2 * us.length : Int)) ++ (u16sToBytes us ++ tail))) =
      .ok (s, 2 * us.length) := by
  have hsb : (i32le (-(2 * us.length : Int))).length = 4 := rfl
  have hbytes : (u16sToBytes us).length = 2 * us.length := u16sToBytes_length us
  have hrest4 : 4 ≤ (i32le (-(2 * us.length : Int)) ++ (u16sToBytes us ++ tail)).length := by
    rw [List.length_append, hsb]
    omega
  have htake4 : (i32le (-(2 * us.length : Int)) ++ (u16sToBytes us ++ tail)).take 4 =
      i32le (-(2 * us.length : Int)) := List.take_left' hsb
  have hsigned : toSigned32 (leVal (i32le (-(2 * us.length : Int)))) =
      -(2 * us.length : Int) := toSigned32_of_i32le_neg (2 * us.length) (by omega) hsz
  have hlastAll : (0xFE :: (i32le (-(2 * us.length : Int)) ++ (u16sToBytes us ++ tail))).getLastD 0
      = 0xFF := by
    have h1 : (0xFE :: (i32le (-(2 * us.length : Int)) ++ (u16sToBytes us ++ tail))) =
        (0xFE :: i32le (-(2 * us.length : Int)) ++ u16sToBytes us) ++ tail := by
      simp
    rw [h1, getLastD_append_right _ _ htail, hlast]
  have hdrop5 : ((0xFE :: (i32le (-(2 * us.length : Int)) ++ (u16sToBytes us ++ tail))).drop 5)
      = u16sToBytes us ++ tail := by
    rw [List.drop_succ_cons]
    exact List.drop_left' hsb
  have hlen : 5 + 2 * us.length ≤
      (0xFE :: (i32le (-(2 * us.length : Int)) ++ (u16sToBytes us ++ tail))).length := by
    simp only [List.length_cons, List.length_append, hsb, hbytes]
    omega
  simp only [extract_string]
  rw [if_true, if_pos hrest4, htake4, hsigned,
    if_pos (show -(2 * us.length : Int) < 0 by omega), if_pos hlastAll]
  have hnat : ((-(2 * us.length : Int))).natAbs = 2 * us.length := by omega
  rw [hnat, if_pos (show 2 * us.length % 2 = 0 by omega), if_pos hlen, hdrop5,
    List.take_left' hbytes, bytesToU16s_u16sToBytes us hus, hdec]

theorem rebase_eq_of_ok (r : FileRec) (src dst path : List Char) (old : Nat)
    (h : extract_string r.data = .ok (path, old)) :
    r.rebase src dst = .ok ⟨r.typ, r.extra_data,
      0xFE :: (i32le (-(2 * (utf16EncodeStr
          (if src.isPrefixOf path then dst ++ path.drop src.length else path)).length : Int)) ++
        (u16sToBytes (utf16EncodeStr
          (if src.isPrefixOf path then dst ++ path.drop src.length else path)) ++
          r.data.drop (5 + old)))⟩ := by
  simp only [FileRec.rebase, h]
  norm_cast

theorem rebase_ok_inv (r : FileRec) (src dst : List Char) (r2 : FileRec)
    (h : r.rebase src dst = .ok r2) :
    ∃ path old, extract_string r.data = .ok (path, old) ∧
      r2 = ⟨r.typ, r.extra_data,
        0xFE :: (i32le (-(2 * (utf16EncodeStr
            (if src.isPrefixOf path then dst ++ path.drop src.length else path)).length : Int)) ++
          (u16sToBytes (utf16EncodeStr
            (if src.isPrefixOf path then dst ++ path.drop src.length else path)) ++
            r.data.drop (5 + old)))⟩ := by
  cases hx : extract_string r.data with
  | error e2 => simp [FileRec.rebase, hx] at h
  | ok v =>
    obtain ⟨path, old⟩ := v
    refine ⟨path, old, rfl, ?_⟩
    rw [rebase_eq_of_ok r src dst path old hx] at h
    injection h with h2
    exact h2.symm

theorem from_reader_ok_inv (input : List Nat) (rec : FileRec) (rest : List Nat)
    (h : FileRec.from_reader input = .ok (rec, rest)) :
    10 ≤ input.length ∧
    rec.data.length = leVal ((input.drop 6).take 4) ∧
    input.length = 10 + rec.data.length + rest.length ∧
    UninstallRecTyp.from (leVal (input.take 2)) = some rec.typ ∧
    rec.extra_data = leVal ((input.drop 2).take 4) ∧
    rec.data = (input.drop 10).take (leVal ((input.drop 6).take 4)) ∧
    rest = (input.drop 10).drop (leVal ((input.drop 6).take 4)) ∧
    leVal ((input.drop 6).take 4) ≤ 0x8000000 := by
  norm_num only [FileRec.from_reader, List.drop_drop, List.length_drop, List.length_take] at h
  split_ifs at h with h1 h2 h3 h4 h5
  split at h
  · next typ heq =>
    injection h with h6
    injection h6 with hrec hrest
    subst hrec
    subst hrest
    refine ⟨by omega, ?_, ?_, heq, rfl, rfl, (List.drop_drop _ _ _).symm, by omega⟩
    · simp only [List.length_take, List.length_drop]
      omega
    · simp only [List.length_take, List.length_drop]
      omega
  · exact absurd h (by simp)

theorem from_reader_tooLarge (input : List Nat) (h10 : 10 ≤ input.length)
    (hbig : 0x8000000 < leVal ((input.drop 6).take 4)) :
    FileRec.from_reader input = .error .dataSizeTooLarge := by
  norm_num only [FileRec.from_reader, List.drop_drop, List.length_drop, List.length_take]
  rw [if_pos (by omega), if_pos (by omega), if_pos (by omega), if_pos hbig]

/-- C5 counterexample: decoding the 11-byte stream
`[1,0, 0,0,0,0, 0,0,0,0, 9]` succeeds with `data_size = 0`, leaving the
single byte `9` unconsumed: 10 bytes were consumed, not `6 + data_size = 6`
as the claim states. -/
theorem c5_counterexample :
    FileRec.from_reader [1, 0, 0, 0, 0, 0, 0, 0, 0, 0, 9] =
      .ok (⟨.UserDefined, 0, []⟩, [9]) ∧
    ([1, 0, 0, 0, 0, 0, 0, 0, 0, 0, 9] : List Nat).length ≠
      6 + leVal ((([1, 0, 0, 0, 0, 0, 0, 0, 0, 0, 9] : List Nat).drop 6).take 4) +
        ([9] : List Nat).length := by
  constructor
  · decide
  · decide

/-- C5 (amended): every successful record decode consumes exactly
`10 + data_size` bytes — 2 for the type tag, 4 for `extra_data`, 4 for the
`data_size` field itself, plus the payload — and the payload buffer length
equals the declared `data_size`. -/
theorem c5_record_decode_consumption (input : List Nat) (rec : FileRec) (rest : List Nat)
    (h : FileRec.from_reader input = .ok (rec, rest)) :
    input.length = 10 + leVal ((input.drop 6).take 4) + rest.length ∧
    rec.data.length = leVal ((input.drop 6).take 4) := by
  obtain ⟨h1, h2, h3, h4, h5, h6, h7, h8⟩ := from_reader_ok_inv input rec rest h
  exact ⟨by omega, h2⟩

/-- C5 witness: a concrete 12-byte stream with `data_size = 1` decodes
leaving 1 byte, and `12 = 10 + 1 + 1`. -/
theorem c5_witness :
    ([1, 0, 0, 0, 0, 0, 1, 0, 0, 0, 171, 7] : List Nat).length =
      10 + leVal ((([1, 0, 0, 0, 0, 0, 1, 0, 0, 0, 171, 7] : List Nat).drop 6).take 4) +
        ([7] : List Nat).length ∧
    (⟨.UserDefined, 0, [171]⟩ : FileRec).data.length =
      leVal ((([1, 0, 0, 0, 0, 0, 1, 0, 0, 0, 171, 7] : List Nat).drop 6).take 4) :=
  c5_record_decode_consumption [1, 0, 0, 0, 0, 0, 1, 0, 0, 0, 171, 7]
    ⟨.UserDefined, 0, [171]⟩ [7] (by decide)

/-- C7: a declared payload size above the `0x8000000` ceiling makes record
decode fail with the size error — even when no payload bytes are present at
all, showing the failure precedes any payload read; `data_size = 0x8000001`
is concretely rejected on a stream with no payload bytes; and on success
the buffer length always equals the declared size (which is within the
ceiling). -/
theorem c7_payload_size_guard :
    (∀ input rec rest, FileRec.from_reader input = .ok (rec, rest) →
      rec.data.length = leVal ((input.drop 6).take 4) ∧
      leVal ((input.drop 6).take 4) ≤ 0x8000000) ∧
    (∀ input, 10 ≤ input.length → 0x8000000 < leVal ((input.drop 6).take 4) →
      FileRec.from_reader input = .error .dataSizeTooLarge) ∧
    FileRec.from_reader [1, 0, 0, 0, 0, 0, 1, 0, 0, 8] = .error .dataSizeTooLarge := by
  refine ⟨?_, from_reader_tooLarge, by decide⟩
  intro input rec rest h
  obtain ⟨h1, h2, h3, h4, h5, h6, h7, h8⟩ := from_reader_ok_inv input rec rest h
  exact ⟨h2, h8⟩

/-- C7 witness: instantiates the success side on a concrete record with
`data_size = 2` and the guard side on a concrete oversized stream. -/
theorem c7_witness :
    ((⟨.UserDefined, 0, [7, 8]⟩ : FileRec).data.length =
      leVal ((([1, 0, 0, 0, 0, 0, 2, 0, 0, 0, 7, 8, 9] : List Nat).drop 6).take 4) ∧
      leVal ((([1, 0, 0, 0, 0, 0, 2, 0, 0, 0, 7, 8, 9] : List Nat).drop 6).take 4) ≤ 0x8000000) ∧
    FileRec.from_reader [2, 0, 0, 0, 0, 0, 1, 0, 0, 9, 5] = .error .dataSizeTooLarge :=
  ⟨c7_payload_size_guard.1 [1, 0, 0, 0, 0, 0, 2, 0, 0, 0, 7, 8, 9]
      ⟨.UserDefined, 0, [7, 8]⟩ [9] (by decide),
    c7_payload_size_guard.2.1 [2, 0, 0, 0, 0, 0, 1, 0, 0, 9, 5] (by decide) (by decide)⟩

/-- C8 counterexample: on the stream `[2,0, 0,0,0,0, 5,0,0,0, 1,2]` the
leading tag `2` is unrecognized, yet decode fails with the payload
short-read error, not the type-mapping error: the type mapping happens only
after the payload is read, contrary to the claim's stated ordering. -/
theorem c8_counterexample :
    UninstallRecTyp.from (leVal (([2, 0, 0, 0, 0, 0, 5, 0, 0, 0, 1, 2] : List Nat).take 2)) =
      none ∧
    FileRec.from_reader [2, 0, 0, 0, 0, 0, 5, 0, 0, 0, 1, 2] = .error .shortData ∧
    RecErr.shortData ≠ RecErr.unrecognizedTyp := by
  refine ⟨by decide, by decide, by decide⟩

/-- C8 (amended): an unrecognized leading 16-bit tag always makes record
decode fail, but the unrecognized-type error itself surfaces at the
type-mapping step performed after `extra_data`, `data_size` and the payload
have been read: it is reported exactly when those reads and the size check
succeed. -/
theorem c8_unrecognized_tag (input : List Nat) (_h2 : 2 ≤ input.length)
    (hbad : UninstallRecTyp.from (leVal (input.take 2)) = none) :
    (∀ rec rest, FileRec.from_reader input ≠ .ok (rec, rest)) ∧
    (10 ≤ input.length → leVal ((input.drop 6).take 4) ≤ 0x8000000 →
      leVal ((input.drop 6).take 4) ≤ input.length - 10 →
      FileRec.from_reader input = .error .unrecognizedTyp) := by
  constructor
  · intro rec rest hok
    obtain ⟨g1, g2, g3, g4, g5, g6, g7, g8⟩ := from_reader_ok_inv input rec rest hok
    rw [hbad] at g4
    exact Option.noConfusion g4
  · intro h10 hle hlen
    norm_num only [FileRec.from_reader, List.drop_drop, List.length_drop, List.length_take]
    rw [if_pos (by omega), if_pos (by omega), if_pos (by omega), if_neg (by omega),
      if_pos (by omega), hbad]

/-- C8 witness: a concrete unrecognized tag `3` with a full record body
yields the unrecognized-type error, and can never decode successfully. -/
theorem c8_witness :
    (∀ rec rest, FileRec.from_reader [3, 0, 0, 0, 0, 0, 1, 0, 0, 0, 9] ≠ .ok (rec, rest)) ∧
    (10 ≤ ([3, 0, 0, 0, 0, 0, 1, 0, 0, 0, 9] : List Nat).length →
      leVal ((([3, 0, 0, 0, 0, 0, 1, 0, 0, 0, 9] : List Nat).drop 6).take 4) ≤ 0x8000000 →
      leVal ((([3, 0, 0, 0, 0, 0, 1, 0, 0, 0, 9] : List Nat).drop 6).take 4) ≤
        ([3, 0, 0, 0, 0, 0, 1, 0, 0, 0, 9] : List Nat).length - 10 →
      FileRec.from_reader [3, 0, 0, 0, 0, 0, 1, 0, 0, 0, 9] = .error .unrecognizedTyp) :=
  c8_unrecognized_tag [3, 0, 0, 0, 0, 0, 1, 0, 0, 0, 9] (by decide) (by decide)

theorem drop_append_plus : ∀ (l1 l2 : List Nat) (k : Nat),
    (l1 ++ l2).drop (l1.length + k) = l2.drop k
  | [], l2, k => by simp
  | a :: t, l2, k => by
    have h : (a :: t).length + k = (t.length + k) + 1 := by
      simp only [List.length_cons]
      omega
    rw [h, List.cons_append, List.drop_succ_cons, drop_append_plus t l2 k]

/-- C4: a successful rebase rewrites the payload as the `0xFE` sentinel,
the little-endian two's-complement encoding of `-new_byte_length`, the
re-encoded UTF-16LE units, and then every original byte from offset
`5 + old_byte_length` on, which therefore reappears unchanged at offset
`5 + new_byte_length`; the record's `typ` and `extra_data` are untouched. -/
theorem c4_rebase_layout (r : FileRec) (src dst : List Char) (r2 : FileRec)
    (h : r.rebase src dst = .ok r2) :
    ∃ path old, extract_string r.data = .ok (path, old) ∧
      r2.typ = r.typ ∧ r2.extra_data = r.extra_data ∧
      r2.data = 0xFE :: (i32le (-(2 * (utf16EncodeStr
          (if src.isPrefixOf path then dst ++ path.drop src.length else path)).length : Int)) ++
        (u16sToBytes (utf16EncodeStr
          (if src.isPrefixOf path then dst ++ path.drop src.length else path)) ++
          r.data.drop (5 + old))) ∧
      r2.data.drop (5 + 2 * (utf16EncodeStr
          (if src.isPrefixOf path then dst ++ path.drop src.length else path)).length) =
        r.data.drop (5 + old) := by
  obtain ⟨path, old, hx, hr2⟩ := rebase_ok_inv r src dst r2 h
  refine ⟨path, old, hx, ?_, ?_, ?_, ?_⟩
  · rw [hr2]
  · rw [hr2]
  · rw [hr2]
  · rw [hr2]
    have hsplit : (0xFE : Nat) :: (i32le (-(2 * (utf16EncodeStr
        (if src.isPrefixOf path then dst ++ path.drop src.length else path)).length : Int)) ++
        (u16sToBytes (utf16EncodeStr
          (if src.isPrefixOf path then dst ++ path.drop src.length else path)) ++
          r.data.drop (5 + old))) =
        ((0xFE : Nat) :: i32le (-(2 * (utf16EncodeStr
          (if src.isPrefixOf path then dst ++ path.drop src.length else path)).length : Int)) ++
          u16sToBytes (utf16EncodeStr
            (if src.isPrefixOf path then dst ++ path.drop src.length else path))) ++
          r.data.drop (5 + old) := by
      simp
    rw [hsplit]
    have hlen : ((0xFE : Nat) :: i32le (-(2 * (utf16EncodeStr
        (if src.isPrefixOf path then dst ++ path.drop src.length else path)).length : Int)) ++
        u16sToBytes (utf16EncodeStr
          (if src.isPrefixOf path then dst ++ path.drop src.length else path))).length =
        5 + 2 * (utf16EncodeStr
          (if src.isPrefixOf path then dst ++ path.drop src.length else path)).length := by
      simp only [List.length_append, List.length_cons, i32le_length, u16sToBytes_length]
    rw [← hlen]
    exact List.drop_left _ _

/-- C9: the size field a successful rebase writes is the little-endian
two's-complement encoding of `-new_byte_length`; when the post-replacement
text is empty the written field is zero — not negative — so decoding the
embedded string of the very payload rebase just produced fails on the
negative-size framing check. -/
theorem c9_zero_size_field (r : FileRec) (src dst : List Char) (r2 : FileRec)
    (h : r.rebase src dst = .ok r2) :
    ∃ path old, extract_string r.data = .ok (path, old) ∧
      (r2.data.drop 1).take 4 = i32le (-(2 * (utf16EncodeStr
        (if src.isPrefixOf path then dst ++ path.drop src.length else path)).length : Int)) ∧
      ((if src.isPrefixOf path then dst ++ path.drop src.length else path) = [] →
        leVal ((r2.data.drop 1).take 4) = 0 ∧
        extract_string r2.data = .error .sizeNonNeg) := by
  obtain ⟨path, old, hx, hr2⟩ := rebase_ok_inv r src dst r2 h
  refine ⟨path, old, hx, ?_, ?_⟩
  · rw [hr2]
    rw [List.drop_succ_cons, List.drop_zero]
    exact List.take_left' rfl
  · intro hempty
    rw [hr2]
    rw [hempty]
    have e0 : (-(2 * ((utf16EncodeStr ([] : List Char)).length : Int))) = 0 := by
      norm_num [utf16EncodeStr]
    have e2 : u16sToBytes (utf16EncodeStr ([] : List Char)) = [] := rfl
    constructor
    · rw [List.drop_succ_cons, List.drop_zero, e0, e2, List.nil_append,
        List.take_left' (i32le_length 0)]
      rfl
    · rw [e0, e2, List.nil_append]
      simp only [extract_string]
      rw [if_true]
      have h4 : 4 ≤ (i32le (0 : Int) ++ r.data.drop (5 + old)).length := by
        rw [List.length_append, i32le_length]
        omega
      rw [if_pos h4, List.take_left' (i32le_length 0)]
      rw [if_neg (by norm_num [i32le, u32le, leVal, toSigned32])]

/-- C4 witness: rebasing the concrete record with payload
`FE FE FF FF FF 61 00 FF` (embedded text `"a"`) from `"a"` to `"b"`
instantiates the layout theorem. -/
theorem c4_witness :
    ∃ path old,
      extract_string (⟨.UserDefined, 0,
          [254, 254, 255, 255, 255, 97, 0, 255]⟩ : FileRec).data = .ok (path, old) ∧
      (⟨.UserDefined, 0, [254, 254, 255, 255, 255, 98, 0, 255]⟩ : FileRec).typ =
        (⟨.UserDefined, 0, [254, 254, 255, 255, 255, 97, 0, 255]⟩ : FileRec).typ ∧
      (⟨.UserDefined, 0, [254, 254, 255, 255, 255, 98, 0, 255]⟩ : FileRec).extra_data =
        (⟨.UserDefined, 0, [254, 254, 255, 255, 255, 97, 0, 255]⟩ : FileRec).extra_data ∧
      (⟨.UserDefined, 0, [254, 254, 255, 255, 255, 98, 0, 255]⟩ : FileRec).data =
        0xFE :: (i32le (-(2 * (utf16EncodeStr
          (if List.isPrefixOf [Char.ofNat 97] path
            then [Char.ofNat 98] ++ path.drop (List.length [Char.ofNat 97]) else path)).length :
              Int)) ++
        (u16sToBytes (utf16EncodeStr
          (if List.isPrefixOf [Char.ofNat 97] path
            then [Char.ofNat 98] ++ path.drop (List.length [Char.ofNat 97]) else path)) ++
          (⟨.UserDefined, 0, [254, 254, 255, 255, 255, 97, 0, 255]⟩ : FileRec).data.drop
            (5 + old))) ∧
      (⟨.UserDefined, 0, [254, 254, 255, 255, 255, 98, 0, 255]⟩ : FileRec).data.drop
          (5 + 2 * (utf16EncodeStr
            (if List.isPrefixOf [Char.ofNat 97] path
              then [Char.ofNat 98] ++ path.drop (List.length [Char.ofNat 97]) else path)).length) =
        (⟨.UserDefined, 0, [254, 254, 255, 255, 255, 97, 0, 255]⟩ : FileRec).data.drop
          (5 + old) :=
  c4_rebase_layout ⟨.UserDefined, 0, [254, 254, 255, 255, 255, 97, 0, 255]⟩
    [Char.ofNat 97] [Char.ofNat 98]
    ⟨.UserDefined, 0, [254, 254, 255, 255, 255, 98, 0, 255]⟩ (by decide)

/-- C9 witness: rebasing the record with embedded text `"a"` from `"a"` to
the empty string writes a zero size field and the produced payload no
longer decodes. -/
theorem c9_witness :
    ∃ path old,
      extract_string (⟨.UserDefined, 0,
          [254, 254, 255, 255, 255, 97, 0, 255]⟩ : FileRec).data = .ok (path, old) ∧
      ((⟨.UserDefined, 0, [254, 0, 0, 0, 0, 255]⟩ : FileRec).data.drop 1).take 4 =
        i32le (-(2 * (utf16EncodeStr
          (if List.isPrefixOf [Char.ofNat 97] path
            then [] ++ path.drop (List.length [Char.ofNat 97]) else path)).length : Int)) ∧
      ((if List.isPrefixOf [Char.ofNat 97] path
          then [] ++ path.drop (List.length [Char.ofNat 97]) else path) = [] →
        leVal (((⟨.UserDefined, 0, [254, 0, 0, 0, 0, 255]⟩ : FileRec).data.drop 1).take 4) = 0 ∧
        extract_string (⟨.UserDefined, 0, [254, 0, 0, 0, 0, 255]⟩ : FileRec).data =
          .error .sizeNonNeg) :=
  c9_zero_size_field ⟨.UserDefined, 0, [254, 254, 255, 255, 255, 97, 0, 255]⟩
    [Char.ofNat 97] [] ⟨.UserDefined, 0, [254, 0, 0, 0, 0, 255]⟩ (by decide)

/-- C10: embedded-string decode succeeds only when the payload holds the
whole declared segment (`5 + magnitude ≤ length`); when every framing check
passes but the segment overruns the payload the failure is the slice-bounds
error, which is not a framing-classified error; and the trailing `0xFF`
check inspects only the final payload byte with no check that it sits at or
after offset `5 + magnitude` — concretely, a payload whose final byte is
the last byte of the string segment itself decodes successfully, and an
overrunning payload passes the `0xFF` check on a byte inside the declared
segment before failing on bounds. -/
theorem c10_bounds_and_sentinel (data : List Nat) (t : List Char) (m : Nat) :
    (extract_string data = .ok (t, m) → 5 + m ≤ data.length) ∧
    (extract_string [0xFE, 0xFA, 0xFF, 0xFF, 0xFF, 0x41, 0x00, 0xFF] = .error .sliceOOB ∧
      StrErr.isFraming .sliceOOB = false) ∧
    (extract_string [0xFE, 0xFE, 0xFF, 0xFF, 0xFF, 0x41, 0xFF] =
        .ok ([Char.ofNat 0xFF41], 2) ∧
      ([0xFE, 0xFE, 0xFF, 0xFF, 0xFF, 0x41, 0xFF] : List Nat).length = 5 + 2) := by
  refine ⟨?_, ⟨by decide, by decide⟩, ⟨by decide, by decide⟩⟩
  intro h
  exact (extract_string_ok data t m h).2.2.2.2.2.2.1

/-- C10 witness: the success-side bound instantiated on the concrete
7-byte payload whose string segment reaches the end of the payload. -/
theorem c10_witness :
    5 + 2 ≤ ([0xFE, 0xFE, 0xFF, 0xFF, 0xFF, 0x41, 0xFF] : List Nat).length :=
  (c10_bounds_and_sentinel [0xFE, 0xFE, 0xFF, 0xFF, 0xFF, 0x41, 0xFF]
    [Char.ofNat 0xFF41] 2).1 (by decide)

/-- The first 444 bytes of a valid header block with version 1048: magic id
padded to 64 bytes, zero app fields, version, zero counters, flags and
reserved area. -/
def headerBody1048 : List Nat :=
  headerId32 ++ List.replicate 36 0 ++ List.replicate 256 0 ++
    [24, 4, 0, 0] ++ List.replicate 120 0

/-- The same 444 bytes with version 1049. -/
def headerBody1049 : List Nat :=
  headerId32 ++ List.replicate 36 0 ++ List.replicate 256 0 ++
    [25, 4, 0, 0] ++ List.replicate 120 0

theorem crcBody1048 : crc32 headerBody1048 = 3644203159 := by
  have hsplit : headerBody1048 = headerId32 ++ (List.replicate 32 0 ++ (List.replicate 4 0 ++ (List.replicate 32 0 ++ (List.replicate 32 0 ++ (List.replicate 32 0 ++ (List.replicate 32 0 ++ (List.replicate 32 0 ++ (List.replicate 32 0 ++ (List.replicate 32 0 ++ (List.replicate 32 0 ++ ([24, 4, 0, 0] ++ (List.replicate 32 0 ++ (List.replicate 32 0 ++ (List.replicate 32 0 ++ (List.replicate 24 0))))))))))))))) := by decide
  have h0 : List.foldl crc32Byte 4294967295 (headerId32) = 4149221257 := by decide
  have h1 : List.foldl crc32Byte 4149221257 (List.replicate 32 0) = 1870413904 := by decide
  have h2 : List.foldl crc32Byte 1870413904 (List.replicate 4 0) = 3843082321 := by decide
  have h3 : List.foldl crc32Byte 3843082321 (List.replicate 32 0) = 4131850220 := by decide
  have h4 : List.foldl crc32Byte 4131850220 (List.replicate 32 0) = 3897358504 := by decide
  have h5 : List.foldl crc32Byte 3897358504 (List.replicate 32 0) = 2387869321 := by decide
  have h6 : List.foldl crc32Byte 2387869321 (List.replicate 32 0) = 2950901033 := by decide
  have h7 : List.foldl crc32Byte 2950901033 (List.replicate 32 0) = 2259949421 := by decide
  have h8 : List.foldl crc32Byte 2259949421 (List.replicate 32 0) = 3345863430 := by decide
  have h9 : List.foldl crc32Byte 3345863430 (List.replicate 32 0) = 3221774266 := by decide
  have h10 : List.foldl crc32Byte 3221774266 (List.replicate 32 0) = 196790567 := by decide
  have h11 : List.foldl crc32Byte 196790567 ([24, 4, 0, 0]) = 3100078686 := by decide
  have h12 : List.foldl crc32Byte 3100078686 (List.replicate 32 0) = 3065255062 := by decide
  have h13 : List.foldl crc32Byte 3065255062 (List.replicate 32 0) = 371406855 := by decide
  have h14 : List.foldl crc32Byte 371406855 (List.replicate 32 0) = 2491991532 := by decide
  have h15 : List.foldl crc32Byte 2491991532 (List.replicate 24 0) = 650764136 := by decide
  rw [crc32, hsplit]
  rw [List.foldl_append, h0]
  rw [List.foldl_append, h1]
  rw [List.foldl_append, h2]
  rw [List.foldl_append, h3]
  rw [List.foldl_append, h4]
  rw [List.foldl_append, h5]
  rw [List.foldl_append, h6]
  rw [List.foldl_append, h7]
  rw [List.foldl_append, h8]
  rw [List.foldl_append, h9]
  rw [List.foldl_append, h10]
  rw [List.foldl_append, h11]
  rw [List.foldl_append, h12]
  rw [List.foldl_append, h13]
  rw [List.foldl_append, h14]
  rw [h15]
  decide

theorem crcBody1049 : crc32 headerBody1049 = 2905659906 := by
  have hsplit : headerBody1049 = headerId32 ++ (List.replicate 32 0 ++ (List.replicate 4 0 ++ (List.replicate 32 0 ++ (List.replicate 32 0 ++ (List.replicate 32 0 ++ (List.replicate 32 0 ++ (List.replicate 32 0 ++ (List.replicate 32 0 ++ (List.replicate 32 0 ++ (List.replicate 32 0 ++ ([25, 4, 0, 0] ++ (List.replicate 32 0 ++ (List.replicate 32 0 ++ (List.replicate 32 0 ++ (List.replicate 24 0))))))))))))))) := by decide
  have h0 : List.foldl crc32Byte 4294967295 (headerId32) = 4149221257 := by decide
  have h1 : List.foldl crc32Byte 4149221257 (List.replicate 32 0) = 1870413904 := by decide
  have h2 : List.foldl crc32Byte 1870413904 (List.replicate 4 0) = 3843082321 := by decide
  have h3 : List.foldl crc32Byte 3843082321 (List.replicate 32 0) = 4131850220 := by decide
  have h4 : List.foldl crc32Byte 4131850220 (List.replicate 32 0) = 3897358504 := by decide
  have h5 : List.foldl crc32Byte 3897358504 (List.replicate 32 0) = 2387869321 := by decide
  have h6 : List.foldl crc32Byte 2387869321 (List.replicate 32 0) = 2950901033 := by decide
  have h7 : List.foldl crc32Byte 2950901033 (List.replicate 32 0) = 2259949421 := by decide
  have h8 : List.foldl crc32Byte 2259949421 (List.replicate 32 0) = 3345863430 := by decide
  have h9 : List.foldl crc32Byte 3345863430 (List.replicate 32 0) = 3221774266 := by decide
  have h10 : List.foldl crc32Byte 3221774266 (List.replicate 32 0) = 196790567 := by decide
  have h11 : List.foldl crc32Byte 196790567 ([25, 4, 0, 0]) = 8066363 := by decide
  have h12 : List.foldl crc32Byte 8066363 (List.replicate 32 0) = 600096771 := by decide
  have h13 : List.foldl crc32Byte 600096771 (List.replicate 32 0) = 1931386917 := by decide
  have h14 : List.foldl crc32Byte 1931386917 (List.replicate 32 0) = 3776381809 := by decide
  have h15 : List.foldl crc32Byte 3776381809 (List.replicate 24 0) = 1389307389 := by decide
  rw [crc32, hsplit]
  rw [List.foldl_append, h0]
  rw [List.foldl_append, h1]
  rw [List.foldl_append, h2]
  rw [List.foldl_append, h3]
  rw [List.foldl_append, h4]
  rw [List.foldl_append, h5]
  rw [List.foldl_append, h6]
  rw [List.foldl_append, h7]
  rw [List.foldl_append, h8]
  rw [List.foldl_append, h9]
  rw [List.foldl_append, h10]
  rw [List.foldl_append, h11]
  rw [List.foldl_append, h12]
  rw [List.foldl_append, h13]
  rw [List.foldl_append, h14]
  rw [h15]
  decide

/-- A concrete valid 448-byte header block: version 1048 body followed by
its matching CRC-32/IEEE value. -/
def headerBlock1048 : List Nat :=
  headerBody1048 ++ [151, 32, 54, 217]

/-- A concrete 448-byte header block identical except for version 1049,
with its own matching CRC-32/IEEE value, so only the version check can
reject it. -/
def headerBlock1049 : List Nat :=
  headerBody1049 ++ [2, 218, 48, 173]

/-- C6: header decode fails exactly when the stream is shorter than 448
bytes, or the stored CRC differs from CRC-32/IEEE of bytes `[0,444)`, or
the trimmed id is neither recognized magic string, or the signed version
exceeds 1048; concretely, a block whose CRC and id are valid is rejected
with version 1049 and accepted with version 1048. -/
theorem c6_header_validation :
    (∀ input : List Nat,
      Header.from_reader input = none ↔
        (input.length < 448 ∨
         crc32 (input.take 444) ≠ leVal ((input.drop 444).take 4) ∨
         (read_utf8_string (input.take 64) ≠ headerId32 ∧
           read_utf8_string (input.take 64) ≠ headerId64) ∨
         1048 < toSigned32 (leVal ((input.drop 320).take 4)))) ∧
    (Header.from_reader headerBlock1049 = none ∧
      crc32 (headerBlock1049.take 444) = leVal ((headerBlock1049.drop 444).take 4) ∧
      read_utf8_string (headerBlock1049.take 64) = headerId32 ∧
      toSigned32 (leVal ((headerBlock1049.drop 320).take 4)) = 1049) ∧
    (Header.from_reader headerBlock1048).isSome = true := by
  have hiff : ∀ input : List Nat,
      Header.from_reader input = none ↔
        (input.length < 448 ∨
         crc32 (input.take 444) ≠ leVal ((input.drop 444).take 4) ∨
         (read_utf8_string (input.take 64) ≠ headerId32 ∧
           read_utf8_string (input.take 64) ≠ headerId64) ∨
         1048 < toSigned32 (leVal ((input.drop 320).take 4))) := by
    intro input
    by_cases h448 : 448 ≤ input.length
    · have e444 : (input.take 448).take 444 = input.take 444 := by
        rw [List.take_take]
        norm_num
      have e64 : (input.take 448).take 64 = input.take 64 := by
        rw [List.take_take]
        norm_num
      have e320 : ((input.take 448).drop 320).take 4 = (input.drop 320).take 4 := by
        rw [List.drop_take]
        norm_num [List.take_take]
      have ecrc : ((input.take 448).drop 444).take 4 = (input.drop 444).take 4 := by
        rw [List.drop_take]
        norm_num [List.take_take]
      simp only [Header.from_reader, if_pos h448, e444, e64, e320, ecrc]
      by_cases hcrc : crc32 (input.take 444) = leVal ((input.drop 444).take 4)
      · rw [if_pos hcrc]
        by_cases hid : read_utf8_string (input.take 64) = headerId32 ∨
            read_utf8_string (input.take 64) = headerId64
        · rw [if_pos hid]
          by_cases hver : 1048 < toSigned32 (leVal ((input.drop 320).take 4))
          · rw [if_pos hver]
            exact iff_of_true (by simp) (Or.inr (Or.inr (Or.inr hver)))
          · rw [if_neg hver]
            apply iff_of_false
            · simp
            · push_neg
              refine ⟨by omega, hcrc, ?_, by omega⟩
              intro h1
              rcases hid with h | h
              · exact absurd h h1
              · exact h
        · rw [if_neg hid]
          push_neg at hid
          exact iff_of_true (by simp) (Or.inr (Or.inr (Or.inl hid)))
      · rw [if_neg hcrc]
        exact iff_of_true (by simp) (Or.inr (Or.inl hcrc))
    · simp only [Header.from_reader, if_neg h448]
      exact iff_of_true (by simp) (Or.inl (by omega))
  have hbodyLenA : headerBody1048.length = 444 := by decide
  have hbodyLenB : headerBody1049.length = 444 := by decide
  have htakeA : headerBlock1048.take 444 = headerBody1048 := List.take_left' hbodyLenA
  have htakeB : headerBlock1049.take 444 = headerBody1049 := List.take_left' hbodyLenB
  have hdropA : headerBlock1048.drop 444 = [151, 32, 54, 217] := List.drop_left' hbodyLenA
  have hdropB : headerBlock1049.drop 444 = [2, 218, 48, 173] := List.drop_left' hbodyLenB
  have hcrcA : crc32 (headerBlock1048.take 444) = leVal ((headerBlock1048.drop 444).take 4) := by
    rw [htakeA, hdropA, crcBody1048]
    decide
  have hcrcB : crc32 (headerBlock1049.take 444) = leVal ((headerBlock1049.drop 444).take 4) := by
    rw [htakeB, hdropB, crcBody1049]
    decide
  have hidA : read_utf8_string (headerBlock1048.take 64) = headerId32 := by decide
  have hidB : read_utf8_string (headerBlock1049.take 64) = headerId32 := by decide
  have hverA : toSigned32 (leVal ((headerBlock1048.drop 320).take 4)) = 1048 := by decide
  have hverB : toSigned32 (leVal ((headerBlock1049.drop 320).take 4)) = 1049 := by decide
  have hlenA : 448 ≤ headerBlock1048.length := by decide
  refine ⟨hiff, ⟨?_, hcrcB, hidB, hverB⟩, ?_⟩
  · exact (hiff headerBlock1049).mpr (Or.inr (Or.inr (Or.inr (by rw [hverB]; norm_num))))
  · rw [← Option.ne_none_iff_isSome]
    intro hnone
    rcases (hiff headerBlock1048).mp hnone with hd | hd | hd | hd
    · omega
    · exact hd hcrcA
    · exact hd.1 hidA
    · rw [hverA] at hd
      norm_num at hd

theorem bytesToU16s_length : ∀ (bs : List Nat), (bytesToU16s bs).length = bs.length / 2
  | [] => rfl
  | [b] => by simp [bytesToU16s]
  | b0 :: b1 :: rest => by
    simp only [bytesToU16s, List.length_cons, bytesToU16s_length rest]
    omega

theorem bytesToU16s_lt : ∀ (bs : List Nat), (∀ b ∈ bs, b < 256) →
    ∀ u ∈ bytesToU16s bs, u < 65536
  | [] => by
    intro _ u hu
    simp [bytesToU16s] at hu
  | [b] => by
    intro _ u hu
    simp [bytesToU16s] at hu
  | b0 :: b1 :: rest => by
    intro h u hu
    simp only [bytesToU16s, List.mem_cons] at hu
    rcases hu with hu | hu
    · have h0 : b0 < 256 := h b0 (by simp)
      have h1 : b1 < 256 := h b1 (by simp)
      omega
    · exact bytesToU16s_lt rest (fun v hv => h v (by simp [hv])) u hu

/-- C2: when the decoded path does not start with `src`, a successful rebase
reproduces the payload byte for byte: the re-encoded string equals the
original string bytes, the rewritten size field equals the original field,
and the tail is copied unchanged. -/
theorem c2_rebase_mismatch_identity (r : FileRec) (src dst : List Char) (r2 : FileRec)
    (path : List Char) (old : Nat)
    (hbytes : ∀ b ∈ r.data, b < 256)
    (hx : extract_string r.data = .ok (path, old))
    (hmiss : src.isPrefixOf path = false)
    (h : r.rebase src dst = .ok r2) :
    r2.data = r.data := by
  obtain ⟨hlen5, hhead, hsize, heven, hpos, hlast, hbound, hdec⟩ := extract_string_ok _ _ _ hx
  rw [rebase_eq_of_ok r src dst path old hx] at h
  injection h with h2
  rw [← h2]
  simp only [hmiss, Bool.false_eq_true, if_false]
  have hmemStr : ∀ b ∈ (r.data.drop 5).take old, b < 256 := fun b hb =>
    hbytes b (List.mem_of_mem_drop (List.mem_of_mem_take hb))
  have hunits : ∀ u ∈ bytesToU16s ((r.data.drop 5).take old), u < 65536 :=
    bytesToU16s_lt _ hmemStr
  have henc : utf16EncodeStr path = bytesToU16s ((r.data.drop 5).take old) :=
    encodeStr_of_utf16Decode _ _ hunits hdec
  have hstrLen : ((r.data.drop 5).take old).length = old := by
    rw [List.length_take, List.length_drop]
    omega
  have hencBytes : u16sToBytes (utf16EncodeStr path) = (r.data.drop 5).take old := by
    rw [henc]
    exact u16sToBytes_bytesToU16s _ (by rw [hstrLen]; exact heven) hmemStr
  have hnewSize : 2 * (utf16EncodeStr path).length = old := by
    rw [henc, bytesToU16s_length, hstrLen]
    omega
  have hsb4 : ((r.data.drop 1).take 4).length = 4 := by
    rw [List.length_take, List.length_drop]
    omega
  have hsbmem : ∀ b ∈ (r.data.drop 1).take 4, b < 256 := fun b hb =>
    hbytes b (List.mem_of_mem_drop (List.mem_of_mem_take hb))
  have hcastv : (-(2 * ((utf16EncodeStr path).length : Int))) = -(old : Int) := by
    omega
  have hfield : i32le (-(2 * ((utf16EncodeStr path).length : Int))) =
      (r.data.drop 1).take 4 := by
    rw [hcastv]
    match hv : (r.data.drop 1).take 4, hsb4 with
    | [b1, b2, b3, b4], _ =>
      have m1 : b1 < 256 := hsbmem b1 (by rw [hv]; simp)
      have m2 : b2 < 256 := hsbmem b2 (by rw [hv]; simp)
      have m3 : b3 < 256 := hsbmem b3 (by rw [hv]; simp)
      have m4 : b4 < 256 := hsbmem b4 (by rw [hv]; simp)
      have hlt : leVal [b1, b2, b3, b4] < 4294967296 := leVal_lt_of_len4 _ _ _ _ m1 m2 m3 m4
      have hsv : -(old : Int) = toSigned32 (leVal [b1, b2, b3, b4]) := by
        rw [hv] at hsize
        omega
      rw [hsv, i32le_of_toSigned32 _ hlt, u32le_leVal _ _ _ _ m1 m2 m3 m4]
  rw [hfield, hencBytes]
  cases hd : r.data with
  | nil =>
    rw [hd] at hlen5
    simp at hlen5
  | cons first tail =>
    rw [hd] at hhead
    have hfe : first = 0xFE := by
      have hh : (first :: tail).head? = some first := rfl
      rw [hh] at hhead
      exact Option.some.inj hhead
    subst hfe
    have g1 : List.drop 1 ((0xFE : Nat) :: tail) = tail := rfl
    have g5 : List.drop 5 ((0xFE : Nat) :: tail) = List.drop 4 tail := rfl
    have g5o : List.drop (5 + old) ((0xFE : Nat) :: tail) = List.drop old (List.drop 4 tail) := by
      rw [show (5 + old) = (4 + old) + 1 by omega, List.drop_succ_cons, List.drop_drop]
    rw [g1, g5, g5o]
    congr 1
    calc List.take 4 tail ++ (List.take old (List.drop 4 tail) ++ List.drop old (List.drop 4 tail))
        = List.take 4 tail ++ List.drop 4 tail := by rw [List.take_append_drop]
      _ = tail := List.take_append_drop 4 tail

/-- C2 witness: the record with embedded text `"a"` rebased from `"b"`
(not a prefix) to `"c"` keeps its payload byte for byte. -/
theorem c2_witness :
    FileRec.rebase ⟨.UserDefined, 0, [254, 254, 255, 255, 255, 97, 0, 255]⟩
        [Char.ofNat 98] [Char.ofNat 99] =
      .ok ⟨.UserDefined, 0, [254, 254, 255, 255, 255, 97, 0, 255]⟩ ∧
    (⟨.UserDefined, 0, [254, 254, 255, 255, 255, 97, 0, 255]⟩ : FileRec).data =
      (⟨.UserDefined, 0, [254, 254, 255, 255, 255, 97, 0, 255]⟩ : FileRec).data :=
  ⟨by decide,
    c2_rebase_mismatch_identity ⟨.UserDefined, 0, [254, 254, 255, 255, 255, 97, 0, 255]⟩
      [Char.ofNat 98] [Char.ofNat 99] ⟨.UserDefined, 0, [254, 254, 255, 255, 255, 97, 0, 255]⟩
      [Char.ofNat 97] 2 (by decide) (by decide) (by decide) (by decide)⟩

theorem utf16EncodeChar_length_pos (c : Char) : 0 < (utf16EncodeChar c).length := by
  simp only [utf16EncodeChar]
  split <;> simp

theorem getLastD_drop : ∀ (l : List Nat) (n : Nat) (d : Nat), n < l.length →
    (l.drop n).getLastD d = l.getLastD d
  | _, 0, _, _ => rfl
  | [], n + 1, _, h => by simp at h
  | a :: t, n + 1, d, h => by
    rw [List.drop_succ_cons, getLastD_drop t n d (by simpa using h), List.getLastD_cons]
    exact getLastD_ne_nil t d a (by
      intro hnil
      rw [hnil] at h
      simp at h)

/-- C1 counterexample: the record `FE FE FF FF FF 41 FF` decodes to the
single fullwidth character U+FF41 with nothing after the string segment
(the trailing `0xFF` sentinel is the last byte of the string itself);
rebasing that exact text to `"b"` succeeds, but the produced payload ends
in `0x00` and its embedded-string decode fails the final-byte check, so
the rebased payload does not decode to the new text as the claim states. -/
theorem c1_counterexample :
    extract_string [254, 254, 255, 255, 255, 65, 255] = .ok ([Char.ofNat 0xFF41], 2) ∧
    List.isPrefixOf [Char.ofNat 0xFF41] [Char.ofNat 0xFF41] = true ∧
    FileRec.rebase ⟨.UserDefined, 0, [254, 254, 255, 255, 255, 65, 255]⟩
        [Char.ofNat 0xFF41] [Char.ofNat 98] =
      .ok ⟨.UserDefined, 0, [254, 254, 255, 255, 255, 98, 0]⟩ ∧
    extract_string [254, 254, 255, 255, 255, 98, 0] = .error .lastNotFF := by
  refine ⟨by decide, by decide, by decide, by decide⟩

/-- C1 (amended): for a record whose payload decodes to a text starting
with `src`, a successful `rebase` to `dst` shifts the total payload length
by exactly the UTF-16 byte-length difference of the prefixes
(`new_total + 2*len16(src) = old_total + 2*len16(dst)`); the written size
field decodes to the negation of the new text's UTF-16 byte length whenever
that length is below `2^31`; and provided the new text is nonempty, its
byte length is below `2^31`, and the original payload extends beyond the
string segment (so the trailing `0xFF` sentinel survives the splice), the
rebased payload's embedded string decodes to `dst` followed by the original
suffix together with the new byte length. -/
theorem c1_rebase_prefix_match (r : FileRec) (src dst : List Char) (r2 : FileRec)
    (path : List Char) (old : Nat)
    (hbytes : ∀ b ∈ r.data, b < 256)
    (hx : extract_string r.data = .ok (path, old))
    (hpre : src.isPrefixOf path = true)
    (h : r.rebase src dst = .ok r2) :
    r2.data.length + 2 * (utf16EncodeStr src).length =
      r.data.length + 2 * (utf16EncodeStr dst).length ∧
    (2 * (utf16EncodeStr (dst ++ path.drop src.length)).length < 2147483648 →
      toSigned32 (leVal ((r2.data.drop 1).take 4)) =
        -(2 * ((utf16EncodeStr (dst ++ path.drop src.length)).length : Int))) ∧
    (dst ++ path.drop src.length ≠ [] →
      2 * (utf16EncodeStr (dst ++ path.drop src.length)).length < 2147483648 →
      5 + old < r.data.length →
      extract_string r2.data =
        .ok (dst ++ path.drop src.length,
          2 * (utf16EncodeStr (dst ++ path.drop src.length)).length)) := by
  obtain ⟨hlen5, hhead, hsize, heven, hpos, hlast, hbound, hdec⟩ := extract_string_ok _ _ _ hx
  rw [rebase_eq_of_ok r src dst path old hx] at h
  injection h with h2
  have hdata : r2.data = 0xFE ::
      (i32le (-(2 * ((utf16EncodeStr (dst ++ path.drop src.length)).length : Int))) ++
        (u16sToBytes (utf16EncodeStr (dst ++ path.drop src.length)) ++
          r.data.drop (5 + old))) := by
    rw [← h2]
    simp only [hpre, if_true]
  have hsplitp : src ++ path.drop src.length = path :=
    List.prefix_iff_eq_append.mp (by rwa [List.isPrefixOf_iff_prefix] at hpre)
  have hmemStr : ∀ b ∈ (r.data.drop 5).take old, b < 256 := fun b hb =>
    hbytes b (List.mem_of_mem_drop (List.mem_of_mem_take hb))
  have henc : utf16EncodeStr path = bytesToU16s ((r.data.drop 5).take old) :=
    encodeStr_of_utf16Decode _ _ (bytesToU16s_lt _ hmemStr) hdec
  have hstrLen : ((r.data.drop 5).take old).length = old := by
    rw [List.length_take, List.length_drop]
    omega
  have hold : 2 * (utf16EncodeStr path).length = old := by
    rw [henc, bytesToU16s_length, hstrLen]
    omega
  have hL : (utf16EncodeStr (dst ++ path.drop src.length)).length =
      (utf16EncodeStr dst).length + (utf16EncodeStr (path.drop src.length)).length := by
    rw [utf16EncodeStr_append, List.length_append]
  have hP : (utf16EncodeStr path).length =
      (utf16EncodeStr src).length + (utf16EncodeStr (path.drop src.length)).length := by
    conv =>
      lhs
      rw [← hsplitp]
    rw [utf16EncodeStr_append, List.length_append]
  refine ⟨?_, ?_, ?_⟩
  · rw [hdata]
    simp only [List.length_cons, List.length_append, i32le_length, u16sToBytes_length,
      List.length_drop]
    omega
  · intro hsmall
    rw [hdata, List.drop_succ_cons, List.drop_zero,
      List.take_left' (i32le_length _)]
    by_cases hz : (utf16EncodeStr (dst ++ path.drop src.length)).length = 0
    · rw [hz]
      norm_num [i32le, u32le, leVal, toSigned32]
    · have hc : -(2 * ((utf16EncodeStr (dst ++ path.drop src.length)).length : Int)) =
          -((2 * (utf16EncodeStr (dst ++ path.drop src.length)).length : Nat) : Int) := by
        push_cast
        ring
      rw [hc, toSigned32_of_i32le_neg _ (by omega) hsmall]
  · intro hne hsmall htail
    have hpos2 : 0 < (utf16EncodeStr (dst ++ path.drop src.length)).length := by
      cases hcase : dst ++ path.drop src.length with
      | nil => exact absurd hcase hne
      | cons c s =>
        simp only [utf16EncodeStr, List.length_append]
        have := utf16EncodeChar_length_pos c
        omega
    have htail2 : r.data.drop (5 + old) ≠ [] := by
      intro hc
      rw [List.drop_eq_nil_iff] at hc
      omega
    have hlast2 : (r.data.drop (5 + old)).getLastD 0 = 0xFF := by
      rw [getLastD_drop _ _ _ (by omega)]
      exact hlast
    rw [hdata]
    exact extract_string_rebuilt (utf16EncodeStr (dst ++ path.drop src.length))
      (r.data.drop (5 + old)) (dst ++ path.drop src.length)
      (utf16EncodeStr_lt _) hpos2 hsmall htail2 hlast2
      (utf16Decode_encodeStr _)

/-- C1 witness: rebasing the record with embedded text `"a"` and a
nonempty tail from `"a"` to `"b"` instantiates all three parts of the
amended claim. -/
theorem c1_witness :
    (⟨.UserDefined, 0, [254, 254, 255, 255, 255, 98, 0, 255]⟩ : FileRec).data.length +
        2 * (utf16EncodeStr [Char.ofNat 97]).length =
      (⟨.UserDefined, 0, [254, 254, 255, 255, 255, 97, 0, 255]⟩ : FileRec).data.length +
        2 * (utf16EncodeStr [Char.ofNat 98]).length ∧
    (2 * (utf16EncodeStr ([Char.ofNat 98] ++
        List.drop (List.length [Char.ofNat 97]) [Char.ofNat 97])).length < 2147483648 →
      toSigned32 (leVal (((⟨.UserDefined, 0,
          [254, 254, 255, 255, 255, 98, 0, 255]⟩ : FileRec).data.drop 1).take 4)) =
        -(2 * ((utf16EncodeStr ([Char.ofNat 98] ++
          List.drop (List.length [Char.ofNat 97]) [Char.ofNat 97])).length : Int))) ∧
    ([Char.ofNat 98] ++ List.drop (List.length [Char.ofNat 97]) [Char.ofNat 97] ≠ [] →
      2 * (utf16EncodeStr ([Char.ofNat 98] ++
        List.drop (List.length [Char.ofNat 97]) [Char.ofNat 97])).length < 2147483648 →
      5 + 2 < (⟨.UserDefined, 0,
        [254, 254, 255, 255, 255, 97, 0, 255]⟩ : FileRec).data.length →
      extract_string (⟨.UserDefined, 0,
          [254, 254, 255, 255, 255, 98, 0, 255]⟩ : FileRec).data =
        .ok ([Char.ofNat 98] ++ List.drop (List.length [Char.ofNat 97]) [Char.ofNat 97],
          2 * (utf16EncodeStr ([Char.ofNat 98] ++
            List.drop (List.length [Char.ofNat 97]) [Char.ofNat 97])).length)) :=
  c1_rebase_prefix_match ⟨.UserDefined, 0, [254, 254, 255, 255, 255, 97, 0, 255]⟩
    [Char.ofNat 97] [Char.ofNat 98]
    ⟨.UserDefined, 0, [254, 254, 255, 255, 255, 98, 0, 255]⟩
    [Char.ofNat 97] 2 (by decide) (by decide) (by decide) (by decide)
